import Mathlib

/-!
Verification of the seqda store engine against its natural-language
specification.

The development shallowly embeds the repository's current engine: the
ES-module revision of `src/index.js` (staged in the tree next to the webpack
configuration, which bundles it; the repository also carries an older CommonJS
revision, superseded by this one).  Embedded are: the immutable tree writer
`setPath` with its helpers `clone` and `copyKeysToArray`, the per-scope method
cache (`isCacheInvalid`, `setCache`, the wrapper produced by
`createScopeMethod`), the scope-level `getState`/`setState` closures with
their `emitOnFetch` and write-suppression (`DISALLOW_WRITE`) guards, `hydrate`
with its cache-clearing registry, `cloneStore`'s shallow state copy, and the
microtask change notifier `queueChangeEvent` together with its flush
callback.

JavaScript values are modelled by `JSVal`.  Containers (objects and arrays)
carry an explicit reference id `ref`, so that the strict-equality operator of
the host language, which compares objects by reference, is expressible
(`jsStrictEq`), and a `frozen` flag recording `Object.freeze`.  Functions that
allocate new containers (`clone`, `setPath`) take a `fresh` id for each
allocation; callers keep allocations distinct by passing ids larger than every
id already in use.  Object entries are insertion-ordered association lists
(`JSEntries`), matching the enumeration order of string-keyed JavaScript
objects (scope paths are dot-joined template keys, which are taken to be
non-integer-like strings, so integer-index reordering of keys does not arise
for them).
-/

set_option autoImplicit false

namespace Seqda

mutual

/-- A JavaScript value: primitives, plus containers (objects / arrays) with a
reference id, an `Object.freeze` flag and insertion-ordered entries. -/
inductive JSVal where
  | undefined : JSVal
  | vnull : JSVal
  | bool (b : Bool) : JSVal
  | num (n : Int) : JSVal
  | str (s : String) : JSVal
  | container (ref : Nat) (isArr : Bool) (frozen : Bool)
      (entries : JSEntries) : JSVal
deriving DecidableEq

/-- The insertion-ordered property list of a container. -/
inductive JSEntries where
  | nil : JSEntries
  | cons (key : String) (value : JSVal) (rest : JSEntries) : JSEntries
deriving DecidableEq

end

/-- JavaScript truthiness of a value. -/
def truthy : JSVal → Bool
  | .undefined => false
  | .vnull => false
  | .bool b => b
  | .num n => n != 0
  | .str s => s != ""
  | .container _ _ _ _ => true

/-- Whether `typeof v` is the string "object" (true for containers and null). -/
def isObjType : JSVal → Bool
  | .container _ _ _ _ => true
  | .vnull => true
  | _ => false

/-- Whether the value is an array (`Array.isArray`). -/
def isArrayVal : JSVal → Bool
  | .container _ true _ _ => true
  | _ => false

/-- The reference id of a container, if any. -/
def containerRef : JSVal → Option Nat
  | .container r _ _ _ => some r
  | _ => none

/-- Whether a container is frozen (`Object.isFrozen`; primitives count as
frozen in JavaScript, but the claims only apply this to containers). -/
def isFrozenVal : JSVal → Bool
  | .container _ _ f _ => f
  | _ => true

/-- JavaScript strict equality: value comparison on primitives, reference
comparison on containers. -/
def jsStrictEq : JSVal → JSVal → Bool
  | .undefined, .undefined => true
  | .vnull, .vnull => true
  | .bool a, .bool b => a == b
  | .num a, .num b => a == b
  | .str a, .str b => a == b
  | .container a _ _ _, .container b _ _ _ => a == b
  | _, _ => false

/-- First value bound to a key (JavaScript property lookup; keys of a real
JavaScript object are distinct, so the first binding is the binding). -/
def JSEntries.find : JSEntries → String → Option JSVal
  | .nil, _ => none
  | .cons k0 v0 rest, k => if k0 = k then some v0 else rest.find k

/-- JavaScript property assignment on a non-frozen object: replace the first
binding of the key, or append a new one. -/
def JSEntries.set : JSEntries → String → JSVal → JSEntries
  | .nil, k, v => .cons k v .nil
  | .cons k0 v0 rest, k, v =>
      if k0 = k then .cons k0 v rest else .cons k0 v0 (rest.set k v)

/-- Property read `v[k]`: `undefined` when absent or when `v` is not a
container. -/
def getKey : JSVal → String → JSVal
  | .container _ _ _ es, k => (es.find k).getD .undefined
  | _, _ => .undefined

/-- Property write on a container (the engine only assigns to freshly cloned,
unfrozen containers; other cases are unreachable and left as the identity). -/
def setKey : JSVal → String → JSVal → JSVal
  | .container r a f es, k, v => .container r a f (es.set k v)
  | cur, _, _ => cur

/-- `Object.freeze`: set the frozen flag of a container (shallow). -/
def freezeVal : JSVal → JSVal
  | .container r a _ es => .container r a true es
  | v => v

/-- Whether a key is an array-index-like key: the test of the digits-only
regular expression used by `copyKeysToArray`, written over the character list
so that concrete keys evaluate by reduction. -/
def isIndexKey (s : String) : Bool :=
  !s.data.isEmpty && s.data.all Char.isDigit

/-- Keep only the index-like entries (what `value.slice()` copies from an
array). -/
def JSEntries.filterIndex : JSEntries → JSEntries
  | .nil => .nil
  | .cons k v rest =>
      if isIndexKey k then .cons k v rest.filterIndex else rest.filterIndex

/-- The loop of `copyKeysToArray`: assign every non-index key of the source
onto the target, in enumeration order. -/
def JSEntries.assignNonIndex : JSEntries → JSEntries → JSEntries
  | target, .nil => target
  | target, .cons k v rest =>
      JSEntries.assignNonIndex (if isIndexKey k then target else target.set k v) rest

/-- `copyKeysToArray(value, source)` from the source file: when `value` is an
array and `source` is truthy, copy every non-index key of `source` onto
`value`, preserving attached side metadata such as sub-scope bindings across
array replacement.  Enumerating the keys of a primitive source yields no
non-index keys, so only container sources have an effect. -/
def copyKeysToArray (value source : JSVal) : JSVal :=
  match value, source with
  | .container r true f es, .container _ _ _ ses =>
      .container r true f (es.assignNonIndex ses)
  | v, _ => v

/-- `clone(value)` from the source file: primitives (and falsy values) are
returned unchanged; an array is copied index entries first and then
`copyKeysToArray` restores its non-index keys; an object is copied by
assigning all its entries onto a fresh empty object.  The copy is a new,
unfrozen allocation with reference id `fresh`. -/
def clone (fresh : Nat) (value : JSVal) : JSVal :=
  match value with
  | .container r true f es =>
      copyKeysToArray (.container fresh true false es.filterIndex)
        (.container r true f es)
  | .container _ false _ es => .container fresh false false es
  | v => v

/-- Splitting loop for dot-separated paths: accumulate characters until a dot,
emitting a segment at each dot and at the end. -/
def splitSegsAux : List Char → List Char → List String
  | [], cur => [String.mk cur.reverse]
  | c :: rest, cur =>
      if c = '.' then String.mk cur.reverse :: splitSegsAux rest []
      else splitSegsAux rest (c :: cur)

/-- The dot-splitting of a path string, as the source performs on every
`setPath` walk and path read; written by structural recursion on the
characters so that concrete paths evaluate by reduction. -/
def splitSegs (path : String) : List String :=
  splitSegsAux path.data []

/-- The loop body of `setPath` over the already-split path segments, acting on
the already-cloned current node.  At the final segment, an array value is
merged with `copyKeysToArray` against the previously stored value, a container
final value is frozen, the assignment is made and the (cloned) parent frozen.
At a non-final segment the child is cloned, assigned and the parent frozen;
the in-place mutation of the child by later iterations is rendered
functionally by assigning the fully processed child.  Each clone uses the next
fresh id. -/
def setPathAux (fresh : Nat) : JSVal → List String → JSVal → JSVal
  | cur, [], _ => cur
  | cur, [p], value =>
      let old := getKey cur p
      let fv0 := if isArrayVal value then copyKeysToArray value old else value
      let fv := if truthy fv0 && isObjType fv0 then freezeVal fv0 else fv0
      freezeVal (setKey cur p fv)
  | cur, p :: q :: rest, value =>
      freezeVal
        (setKey cur p
          (setPathAux (fresh + 1) (clone fresh (getKey cur p)) (q :: rest) value))

/-- `setPath(context, path, value)` from the source file: clone the root, walk
the dot-separated path cloning each visited container, store the value at the
last segment and freeze every newly created container along the way. -/
def setPath (fresh : Nat) (context : JSVal) (path : String) (value : JSVal) :
    JSVal :=
  setPathAux (fresh + 1) (clone fresh context) (splitSegs path) value

/-- Reading the value at a dot-separated path from the state tree (the library
path read used by the scope closures). -/
def nifeGet (state : JSVal) (path : String) : JSVal :=
  (splitSegs path).foldl getKey state

/-- Read the node at an already-split sequence of path segments. -/
def getSegs (v : JSVal) (parts : List String) : JSVal :=
  parts.foldl getKey v

/-! ## The change notifier

`queueChangeEvent(path)` keeps, per store, a mutable record with a scheduled
microtask (`promise`) and an object whose keys are the modified paths
(`eventQueue`).  The flush callback, run by the scheduler, first captures the
`modified` array and resets the queue and the scheduled flag (and takes the
`previousStore` snapshot, which no claim here depends on and which the model
omits), and only then synchronously emits the `update` event — so handlers run
against an idle notifier and their writes schedule a fresh flush.
`ChangeInfo` carries the record, plus a ghost counter of how many flushes have
ever been scheduled (each scheduled flush emits exactly one `update`, so the
counter counts `update` emissions over the store's lifetime). -/

/-- The per-store pending-change record held by the notifier. -/
structure ChangeInfo where
  promiseActive : Bool
  eventQueue : List String
  flushesScheduled : Nat
deriving DecidableEq

/-- The record of a freshly constructed store: nothing queued, no flush
scheduled. -/
def ChangeInfo.idle : ChangeInfo := ⟨false, [], 0⟩

/-- `queueChangeEvent(path)` from the source file: schedule one flush if none
is pending, then mark the path in the queue (keyed assignment: an already
present path keeps its original position). -/
def queueChangeEvent (info : ChangeInfo) (path : String) : ChangeInfo :=
  let info1 :=
    if info.promiseActive then info
    else { info with
            promiseActive := true
            flushesScheduled := info.flushesScheduled + 1 }
  { info1 with
      eventQueue :=
        if path ∈ info1.eventQueue then info1.eventQueue
        else info1.eventQueue ++ [path] }

/-- The flush callback of `queueChangeEvent` (the body passed to the promise
continuation): it captures the queued paths as the `modified` array, resets
the queue and the scheduled flag, and then synchronously emits `update`.  Any
writes the update handlers perform therefore run against the reset record and
enqueue into a fresh batch, scheduling a new flush.  `handlerWrites` are the
paths the handlers write during the emission, in order; the first component of
the result is the `modified` array the event carried. -/
def flushChangeEvents (info : ChangeInfo) (handlerWrites : List String) :
    List String × ChangeInfo :=
  let modified := info.eventQueue
  let reset : ChangeInfo := ⟨false, [], info.flushesScheduled⟩
  (modified, handlerWrites.foldl queueChangeEvent reset)

/-- Distinct paths in first-touched order: the specification's description of
the `modified` array of a flush ("an ordered sequence of distinct paths in
first-seen order"), written independently of the engine as a recursive
filter. -/
def dedupFirstTouched : List String → List String
  | [] => []
  | p :: ps => p :: dedupFirstTouched (ps.filter fun q => q ≠ p)
termination_by l => l.length
decreasing_by
  simp only [List.length_cons]
  exact Nat.lt_succ_of_le (List.length_filter_le _ _)

/-! ## The method cache

Each scope closure owns a `cache` object mapping a method name to the last
argument list and result (`CacheEntry`).  `isCacheInvalid` declares an entry
stale when it is missing, when the argument count differs, or when some
position differs under strict equality; `argsMatch` folds the length check and
the element loop of the source into one comparison.  The wrapper returned by
`createScopeMethod` consults the cache and either replays the stored result or
invokes the method body and records it. -/

/-- A stored method result: the argument list it was computed for, and the
result. -/
structure CacheEntry where
  args : List JSVal
  result : JSVal
deriving DecidableEq

/-- A scope's method cache, keyed by method name. -/
abbrev Cache := List (String × CacheEntry)

/-- Lookup in an association list keyed by strings (property read on the
cache object, and on the per-path cache table of the whole-store model). -/
def assocFind {α : Type} : List (String × α) → String → Option α
  | [], _ => none
  | (k0, v0) :: rest, k => if k0 = k then some v0 else assocFind rest k

/-- Keyed assignment in an association list (property write on the cache
object). -/
def assocSet {α : Type} : List (String × α) → String → α → List (String × α)
  | [], k, v => [(k, v)]
  | (k0, v0) :: rest, k, v =>
      if k0 = k then (k0, v) :: rest else (k0, v0) :: assocSet rest k v

/-- Element-wise strict equality of two argument lists, false when the lengths
differ: the length test and element loop of `isCacheInvalid`. -/
def argsMatch : List JSVal → List JSVal → Bool
  | [], [] => true
  | a :: as, b :: bs => jsStrictEq a b && argsMatch as bs
  | _, _ => false

/-- `isCacheInvalid(scopeName, args)` from the source file: stale when no
entry is stored, when the argument count changed, or when some argument
position differs under strict equality. -/
def isCacheInvalid (cache : Cache) (scopeName : String) (args : List JSVal) :
    Bool :=
  match assocFind cache scopeName with
  | none => true
  | some entry => !argsMatch entry.args args

/-- `setCache(scopeName, args, result)` from the source file. -/
def setCache (cache : Cache) (scopeName : String) (args : List JSVal)
    (result : JSVal) : Cache :=
  assocSet cache scopeName ⟨args, result⟩

/-- The wrapper produced by `createScopeMethod(scopeName, func)`: on a stale
cache invoke the body (which reads the live state through its context) and
record the result; otherwise replay the stored result without invoking the
body.  Returns the result, the updated cache, and whether the body ran. -/
def scopeMethodCall (func : JSVal → List JSVal → JSVal) (state : JSVal)
    (cache : Cache) (scopeName : String) (args : List JSVal) :
    JSVal × Cache × Bool :=
  if isCacheInvalid cache scopeName args then
    let result := func state args
    (result, setCache cache scopeName args result, true)
  else
    (((assocFind cache scopeName).getD ⟨[], .undefined⟩).result, cache, false)

/-! ## The scope closures and the store -/

/-- The error message raised by `setState` on a same-reference value. -/
def sameValueMsg : String :=
  "the state value is the same, but it is required to be different"

/-- Per-property shallow comparison of two entry lists: equal keys in
enumeration order with strictly equal values. -/
def entriesShallowEq : JSEntries → JSEntries → Bool
  | .nil, .nil => true
  | .cons k1 v1 r1, .cons k2 v2 r2 =>
      k1 == k2 && jsStrictEq v1 v2 && entriesShallowEq r1 r2
  | _, _ => false

/-- The library comparison `Nife.propsDiffer(value, currentState)` consulted
by `setState` (the library is an external collaborator whose source is not in
this repository): whether the two values differ — strict inequality for
primitives, per-property strict comparison for containers.  The claims depend
only on its primitive case (identical primitives do not differ) and on
concrete differing pairs. -/
def propsDiffer (a b : JSVal) : Bool :=
  match a, b with
  | .container _ _ _ es1, .container _ _ _ es2 => !entriesShallowEq es1 es2
  | x, y => !jsStrictEq x y

/-- The outcome of a scope-level `setState`: a synchronously thrown error, a
silent early return (the write-suppressed read-only store, or an unchanged
value — no write, no cache wipe, no enqueued notification), or the new state
tree together with the new (emptied) cache of the writing scope, the new
notifier record, and the returned value. -/
inductive SetOutcome where
  | thrown (msg : String) : SetOutcome
  | noop : SetOutcome
  | ok (newState : JSVal) (newCache : Cache) (newInfo : ChangeInfo)
      (returned : JSVal) : SetOutcome
deriving DecidableEq

/-- The `setState` closure of a scope (source lines of
`createStoreSubsection`): return silently when the store carries the
write-suppression marker; throw when the new value is a non-null object
strictly equal (by reference) to the currently stored value; return silently
when the value does not differ from the current one; otherwise write through
`setPath`, wipe this scope's own cache, enqueue the path with
`queueChangeEvent`, and return the value. -/
def scopeSet (fresh : Nat) (disallowWrite : Bool) (state : JSVal)
    (info : ChangeInfo) (path : String) (value : JSVal) : SetOutcome :=
  if disallowWrite then .noop
  else
    let currentState := nifeGet state path
    if truthy value && isObjType value && jsStrictEq value currentState then
      .thrown sameValueMsg
    else if !propsDiffer value currentState then .noop
    else
      .ok (setPath fresh state path value) [] (queueChangeEvent info path)
        value

/-- The whole store as seen by the claims: the internal state tree, the cache
object of every scope closure (keyed by the scope's dot-path), the notifier
record, the store's `emitOnFetch` option, and its write-suppression marker
(the property set on read-only clones). -/
structure StoreState where
  internalState : JSVal
  caches : List (String × Cache)
  info : ChangeInfo
  emitOnFetch : Bool
  disallowWrite : Bool
deriving DecidableEq

/-- The outcome of a scope-level `setState` as seen on the whole store: on a
silent early return the store comes back with every component unchanged. -/
inductive StoreSetOutcome where
  | thrown (msg : String) : StoreSetOutcome
  | noop (st : StoreState) : StoreSetOutcome
  | ok (st : StoreState) (returned : JSVal) : StoreSetOutcome
deriving DecidableEq

/-- A scope's `setState` acting on the whole store: on a genuine write only
the cache of the scope that performed it is replaced (each closure wipes its
own `cache` variable and no other). -/
def storeSet (fresh : Nat) (st : StoreState) (path : String) (value : JSVal) :
    StoreSetOutcome :=
  match scopeSet fresh st.disallowWrite st.internalState st.info path value with
  | .thrown e => .thrown e
  | .noop => .noop st
  | .ok newState newCache newInfo returned =>
      .ok { st with
              internalState := newState
              caches := assocSet st.caches path newCache
              info := newInfo } returned

/-- A scope method invocation acting on the whole store. -/
def storeMethodCall (st : StoreState) (path scopeName : String)
    (func : JSVal → List JSVal → JSVal) (args : List JSVal) :
    JSVal × StoreState × Bool :=
  let r := scopeMethodCall func st.internalState
    ((assocFind st.caches path).getD []) scopeName args
  (r.1, { st with caches := assocSet st.caches path r.2.1 }, r.2.2)

/-- The option handling of `createStore(template, _options)`: the options
object defaults to empty and the read path tests `options.emitOnFetch` for
strict equality with `true`, so an absent options argument or an absent flag
reads as off. -/
def storeEmitOnFetch : Option Bool → Bool
  | some b => b
  | none => false

/-- The `getState` closure of a scope (source lines of
`createStoreSubsection`): emit a `fetchScope` event naming the scope path only
when the store was configured with `emitOnFetch`, then return the value at the
path.  The first component lists the `scopeName` payloads of the `fetchScope`
events the call emitted. -/
def scopeGet (st : StoreState) (path : String) : List String × JSVal :=
  (if st.emitOnFetch then [path] else [], nifeGet st.internalState path)

/-- `hydrate(value)` from the source: replace the internal state with a frozen
shallow clone of the value, run every registered cache-clearing closure (each
subsection registered one that wipes its own `cache` object), and enqueue the
whole-tree sentinel. -/
def storeHydrate (fresh : Nat) (st : StoreState) (value : JSVal) :
    StoreState :=
  { st with
      internalState := freezeVal (clone fresh value)
      caches := st.caches.map fun kv => (kv.1, ([] : Cache))
      info := queueChangeEvent st.info "*" }

/-! ## The clone operator

`cloneStore(store, readyOnly)` rebuilds the scope tree with every method
rebound to the new store object, copies the internal state with a shallow
`Object.assign` onto a fresh empty object (freezing the copy when read-only),
gives the clone a fresh notifier record, and marks read-only clones with the
write-suppression property consulted by `setState`.  Each store object owns
its own internal-state property, so a write through one store's `setState`
assigns only that store's own pointer, and `setPath` itself never mutates an
existing container — it allocates fresh ones along the written path. -/

/-- Whether the value is a container (a non-null object or an array). -/
def isContainerVal : JSVal → Bool
  | .container _ _ _ _ => true
  | _ => false

/-- Whether a key is bound in an entry list. -/
def JSEntries.hasKey (es : JSEntries) (k : String) : Bool :=
  (es.find k).isSome

/-- Whether the keys of an entry list are pairwise distinct — the invariant of
every real JavaScript object's property list. -/
def nodupKeys : JSEntries → Bool
  | .nil => true
  | .cons k _ rest => !rest.hasKey k && nodupKeys rest

/-- The walk of a path whose nodes up to (and excluding) the final segment are
containers — objects or arrays — with distinct keys; the node at the full path
itself is unconstrained.  This is the shape of any scope path in a store
tree. -/
def spineOK : JSVal → List String → Bool
  | _, [] => true
  | v, p :: rest =>
      match v with
      | .container _ _ _ es => nodupKeys es && spineOK (getKey v p) rest
      | _ => false

/-- Whether the root, every ancestor along the path, and the node at the path
itself are frozen. -/
def frozenAlong : JSVal → List String → Bool
  | v, [] => isFrozenVal v
  | v, p :: rest => isFrozenVal v && frozenAlong (getKey v p) rest

mutual

/-- Erase reference ids and frozen flags, keeping the pure data: two values
with the same `stripMeta` image hold the same observable contents. -/
def stripMeta : JSVal → JSVal
  | .container _ a _ es => .container 0 a false (stripMetaEntries es)
  | v => v

/-- Erase reference ids and frozen flags in an entry list. -/
def stripMetaEntries : JSEntries → JSEntries
  | .nil => .nil
  | .cons k v rest => .cons k (stripMeta v) (stripMetaEntries rest)

end

/-! ## Concrete scenarios used by the closed claim theorems -/

/-- The state of a freshly built store with template
`{scope: {_: {test: true}, get: ...}}` after construction froze the default
along its path. -/
def c3State0 : JSVal :=
  .container 0 false true
    (.cons "scope" (.container 1 false true (.cons "test" (.bool true) .nil)) .nil)

/-- The body of the getter method `get({get}) { return get(); }` of scope
`scope`: it reads the live state at its own path. -/
def c3Getter : JSVal → List JSVal → JSVal :=
  fun state _ => nifeGet state "scope"

/-- The store of the hydrate scenario before any call: an ordinary store, no
fetch events, writable. -/
def c3Store0 : StoreState := ⟨c3State0, [], ChangeInfo.idle, false, false⟩

/-- The replacement state handed to `hydrate`: `{scope: {test: false}}`, built
by the caller as fresh (unfrozen) objects. -/
def c3NewVal : JSVal :=
  .container 10 false false
    (.cons "scope" (.container 11 false false (.cons "test" (.bool false) .nil)) .nil)

/-- The store after the getter was called once (its result is now cached). -/
def c3AfterFirst : StoreState :=
  (storeMethodCall c3Store0 "scope" "get" c3Getter []).2.1

/-- The store after `hydrate` replaced the whole state tree and wiped every
scope's cache. -/
def c3Hydrated : StoreState := storeHydrate 20 c3AfterFirst c3NewVal

/-- The getter call made after `hydrate`: a cache miss that re-reads the
hydrated state. -/
def c3Second : JSVal × StoreState × Bool :=
  storeMethodCall c3Hydrated "scope" "get" c3Getter []

/-- A store state `{scope: 5}` (frozen along its written path). -/
def c4State : JSVal := .container 0 false true (.cons "scope" (.num 5) .nil)

/-- A stored object value `{x: 1}` at scope `scope`, for the same-reference
rejection witness. -/
def c4ObjVal : JSVal := .container 3 false true (.cons "x" (.num 1) .nil)

/-- A store state `{scope: {x: 1}}` holding `c4ObjVal`. -/
def c4WState : JSVal := .container 0 false true (.cons "scope" c4ObjVal .nil)

/-- A getter body reading scope `todos`, for the cache-coherence witness. -/
def c5F : JSVal → List JSVal → JSVal :=
  fun state _ => nifeGet state "todos"

/-- A store state `{todos: [..]}` for the cache-coherence witness. -/
def c5State : JSVal :=
  .container 0 false true (.cons "todos" (.container 1 true true .nil) .nil)

/-- A freshly built store with one scope `todos`, created by `createStore`
with no options: `emitOnFetch` reads as off. -/
def c6Store : StoreState :=
  ⟨.container 0 false true (.cons "todos" (.container 1 true true .nil) .nil),
    [], ChangeInfo.idle, false, false⟩

/-- The same store created with `{ emitOnFetch: true }`. -/
def c6FetchStore : StoreState :=
  ⟨.container 0 false true (.cons "todos" (.container 1 true true .nil) .nil),
    [], ChangeInfo.idle, true, false⟩

/-! ## Lemmas about the change notifier -/

theorem eventQueue_queueChangeEvent (info : ChangeInfo) (p : String) :
    (queueChangeEvent info p).eventQueue =
      if p ∈ info.eventQueue then info.eventQueue else info.eventQueue ++ [p] := by
  unfold queueChangeEvent
  by_cases h : info.promiseActive <;> simp [h]

theorem promiseActive_queueChangeEvent (info : ChangeInfo) (p : String) :
    (queueChangeEvent info p).promiseActive = true := by
  unfold queueChangeEvent
  by_cases h : info.promiseActive <;> simp [h]

theorem flushesScheduled_queueChangeEvent_active (info : ChangeInfo)
    (p : String) (h : info.promiseActive = true) :
    (queueChangeEvent info p).flushesScheduled = info.flushesScheduled := by
  unfold queueChangeEvent
  simp [h]

theorem foldl_queueChangeEvent_active (ws : List String) :
    ∀ info : ChangeInfo, info.promiseActive = true →
      (ws.foldl queueChangeEvent info).promiseActive = true ∧
      (ws.foldl queueChangeEvent info).flushesScheduled = info.flushesScheduled := by
  induction ws with
  | nil => exact fun info h => ⟨h, rfl⟩
  | cons p ps ih =>
      intro info h
      simp only [List.foldl_cons]
      refine ⟨(ih _ (promiseActive_queueChangeEvent info p)).1, ?_⟩
      rw [(ih _ (promiseActive_queueChangeEvent info p)).2,
        flushesScheduled_queueChangeEvent_active info p h]

theorem eventQueue_foldl_queueChangeEvent (ws : List String) :
    ∀ info : ChangeInfo,
      (ws.foldl queueChangeEvent info).eventQueue =
        ws.foldl (fun q p => if p ∈ q then q else q ++ [p]) info.eventQueue := by
  induction ws with
  | nil => exact fun _ => rfl
  | cons p ps ih =>
      intro info
      simp only [List.foldl_cons]
      rw [ih (queueChangeEvent info p), eventQueue_queueChangeEvent]

theorem mem_dedupFirstTouched (l : List String) (q : String) :
    q ∈ dedupFirstTouched l ↔ q ∈ l := by
  induction l using dedupFirstTouched.induct with
  | case1 => simp [dedupFirstTouched]
  | case2 p ps ih =>
      rw [dedupFirstTouched]
      by_cases hq : q = p
      · simp [hq]
      · simp only [List.mem_cons, hq, false_or]
        rw [ih]
        simp [List.mem_filter, hq]

theorem nodup_dedupFirstTouched (l : List String) :
    (dedupFirstTouched l).Nodup := by
  induction l using dedupFirstTouched.induct with
  | case1 => simp [dedupFirstTouched]
  | case2 p ps ih =>
      rw [dedupFirstTouched]
      refine List.nodup_cons.mpr ⟨?_, ih⟩
      intro hmem
      have := (mem_dedupFirstTouched _ p).mp hmem
      simp [List.mem_filter] at this

theorem foldl_enqueue_eq_dedup (ws : List String) :
    ∀ acc : List String,
      ws.foldl (fun q p => if p ∈ q then q else q ++ [p]) acc =
        acc ++ dedupFirstTouched (ws.filter fun p => decide (p ∉ acc)) := by
  induction ws with
  | nil => intro acc; simp [dedupFirstTouched]
  | cons p ps ih =>
      intro acc
      simp only [List.foldl_cons]
      by_cases hp : p ∈ acc
      · rw [if_pos hp, ih acc]
        congr 2
        simp [List.filter_cons, hp]
      · rw [if_neg hp, ih (acc ++ [p])]
        have hfil : (p :: ps).filter (fun x => decide (x ∉ acc)) =
            p :: ps.filter (fun x => decide (x ∉ acc)) := by
          simp [List.filter_cons, hp]
        rw [hfil, dedupFirstTouched, List.append_assoc, List.singleton_append]
        congr 2
        rw [List.filter_filter]
        congr 1
        refine List.filter_congr ?_
        intro x _
        by_cases hxp : x = p <;> by_cases hxa : x ∈ acc <;>
          simp [hxp, hxa, List.mem_append]

theorem flushesScheduled_queueChangeEvent_inactive (info : ChangeInfo)
    (p : String) (h : info.promiseActive = false) :
    (queueChangeEvent info p).flushesScheduled = info.flushesScheduled + 1 := by
  unfold queueChangeEvent
  simp [h]

theorem foldl_queueChangeEvent_reset (hw : List String) (info0 : ChangeInfo)
    (h0p : info0.promiseActive = false) (h0q : info0.eventQueue = [])
    (hne : hw ≠ []) :
    (hw.foldl queueChangeEvent info0).promiseActive = true ∧
    (hw.foldl queueChangeEvent info0).flushesScheduled =
      info0.flushesScheduled + 1 ∧
    (hw.foldl queueChangeEvent info0).eventQueue = dedupFirstTouched hw := by
  obtain ⟨p, ps, rfl⟩ : ∃ p ps, hw = p :: ps := by
    cases hw with
    | nil => exact absurd rfl hne
    | cons p ps => exact ⟨p, ps, rfl⟩
  refine ⟨?_, ?_, ?_⟩
  · simp only [List.foldl_cons]
    exact (foldl_queueChangeEvent_active ps _
      (promiseActive_queueChangeEvent info0 p)).1
  · simp only [List.foldl_cons]
    rw [(foldl_queueChangeEvent_active ps _
      (promiseActive_queueChangeEvent info0 p)).2,
      flushesScheduled_queueChangeEvent_inactive info0 p h0p]
  · rw [eventQueue_foldl_queueChangeEvent, h0q, foldl_enqueue_eq_dedup,
      List.nil_append]
    congr 1
    refine (List.filter_congr ?_).trans (List.filter_true _)
    intro x _
    simp

/-- Claim C1: a write performed inside an `update` handler is delivered as a
second, separate `update` emission.  The flush callback captures `modified`
and resets the record before emitting, so: the emitted `modified` array is
unaffected by the handler's writes (they are not merged into the flushing
batch); the handler's writes find the notifier idle and schedule exactly one
new flush; and that subsequent flush emits precisely the handler's distinct
written paths — every path the handler touched appears in it, none is
dropped. -/
theorem claim_c1_reentrant_write_redelivered (info : ChangeInfo)
    (hw : List String) (hne : hw ≠ []) :
    (flushChangeEvents info hw).1 = info.eventQueue ∧
    (flushChangeEvents info hw).2.promiseActive = true ∧
    (flushChangeEvents info hw).2.flushesScheduled =
      info.flushesScheduled + 1 ∧
    (flushChangeEvents (flushChangeEvents info hw).2 []).1 =
      dedupFirstTouched hw ∧
    (∀ p, p ∈ hw →
      p ∈ (flushChangeEvents (flushChangeEvents info hw).2 []).1) := by
  obtain ⟨h1, h2, h3⟩ := foldl_queueChangeEvent_reset hw
    ⟨false, [], info.flushesScheduled⟩ rfl rfl hne
  refine ⟨rfl, h1, h2, ?_, ?_⟩
  · show (hw.foldl queueChangeEvent ⟨false, [], info.flushesScheduled⟩).eventQueue = _
    exact h3
  · intro p hp
    show p ∈ (hw.foldl queueChangeEvent
      ⟨false, [], info.flushesScheduled⟩).eventQueue
    rw [h3]
    exact (mem_dedupFirstTouched hw p).mpr hp

/-- Witness for claim C1: flushing a batch `["assignees"]` while the handler
writes `todos` emits `["assignees"]`, schedules a second flush, and that flush
emits `["todos"]`. -/
theorem claim_c1_reentrant_write_redelivered_witness :
    (flushChangeEvents ⟨true, ["assignees"], 1⟩ ["todos"]).1 =
      (⟨true, ["assignees"], 1⟩ : ChangeInfo).eventQueue ∧
    (flushChangeEvents ⟨true, ["assignees"], 1⟩ ["todos"]).2.promiseActive =
      true ∧
    (flushChangeEvents ⟨true, ["assignees"], 1⟩
        ["todos"]).2.flushesScheduled =
      (⟨true, ["assignees"], 1⟩ : ChangeInfo).flushesScheduled + 1 ∧
    (flushChangeEvents (flushChangeEvents ⟨true, ["assignees"], 1⟩
        ["todos"]).2 []).1 = dedupFirstTouched ["todos"] ∧
    (∀ p, p ∈ ["todos"] →
      p ∈ (flushChangeEvents (flushChangeEvents ⟨true, ["assignees"], 1⟩
        ["todos"]).2 []).1) :=
  claim_c1_reentrant_write_redelivered ⟨true, ["assignees"], 1⟩ ["todos"]
    (by decide)

/-- Claim C2: starting from the idle notifier, any nonempty run of synchronous
writes schedules exactly one flush (hence exactly one `update` emission), and
the `modified` array that flush emits is the sequence of distinct touched
paths in first-write order: it is duplicate-free, contains exactly the touched
paths, and counts every touched path once. -/
theorem claim_c2_batching (ws : List String) (final : ChangeInfo)
    (hws : ws ≠ [])
    (hfinal : final = ws.foldl queueChangeEvent ChangeInfo.idle) :
    final.flushesScheduled = 1 ∧
    final.promiseActive = true ∧
    (flushChangeEvents final []).1 = dedupFirstTouched ws ∧
    (flushChangeEvents final []).1.Nodup ∧
    (∀ p, p ∈ (flushChangeEvents final []).1 ↔ p ∈ ws) ∧
    (∀ p, p ∈ ws → (flushChangeEvents final []).1.count p = 1) := by
  subst hfinal
  obtain ⟨p, ps, rfl⟩ : ∃ p ps, ws = p :: ps := by
    cases ws with
    | nil => exact absurd rfl hws
    | cons p ps => exact ⟨p, ps, rfl⟩
  have hq : ((p :: ps).foldl queueChangeEvent ChangeInfo.idle).eventQueue =
      dedupFirstTouched (p :: ps) := by
    rw [eventQueue_foldl_queueChangeEvent]
    have h0 : ChangeInfo.idle.eventQueue = [] := rfl
    rw [h0, foldl_enqueue_eq_dedup, List.nil_append]
    congr 1
    refine (List.filter_congr ?_).trans (List.filter_true _)
    intro x _
    simp
  have hmod : (flushChangeEvents ((p :: ps).foldl queueChangeEvent
      ChangeInfo.idle) []).1 = dedupFirstTouched (p :: ps) := by
    rw [flushChangeEvents, hq]
  have hsched : ((p :: ps).foldl queueChangeEvent ChangeInfo.idle).flushesScheduled = 1 ∧
      ((p :: ps).foldl queueChangeEvent ChangeInfo.idle).promiseActive = true := by
    simp only [List.foldl_cons]
    have h1 : (queueChangeEvent ChangeInfo.idle p).promiseActive = true :=
      promiseActive_queueChangeEvent _ _
    have h2 : (queueChangeEvent ChangeInfo.idle p).flushesScheduled = 1 := by
      simp [queueChangeEvent, ChangeInfo.idle]
    refine ⟨?_, (foldl_queueChangeEvent_active ps _ h1).1⟩
    rw [(foldl_queueChangeEvent_active ps _ h1).2, h2]
  refine ⟨hsched.1, hsched.2, hmod, ?_, ?_, ?_⟩
  · rw [hmod]; exact nodup_dedupFirstTouched _
  · intro x; rw [hmod]; exact mem_dedupFirstTouched _ _
  · intro x hx
    rw [hmod]
    exact List.count_eq_one_of_mem (nodup_dedupFirstTouched _)
      ((mem_dedupFirstTouched _ _).mpr hx)

/-- Witness for claim C2 at the concrete write run
`["todos", "assignees", "todos"]`. -/
theorem claim_c2_batching_witness :
    (["todos", "assignees", "todos"].foldl queueChangeEvent
        ChangeInfo.idle).flushesScheduled = 1 ∧
    (["todos", "assignees", "todos"].foldl queueChangeEvent
        ChangeInfo.idle).promiseActive = true ∧
    (flushChangeEvents (["todos", "assignees", "todos"].foldl queueChangeEvent
        ChangeInfo.idle) []).1 = dedupFirstTouched ["todos", "assignees", "todos"] ∧
    (flushChangeEvents (["todos", "assignees", "todos"].foldl queueChangeEvent
        ChangeInfo.idle) []).1.Nodup ∧
    (∀ p, p ∈ (flushChangeEvents (["todos", "assignees", "todos"].foldl
        queueChangeEvent ChangeInfo.idle) []).1 ↔
      p ∈ ["todos", "assignees", "todos"]) ∧
    (∀ p, p ∈ ["todos", "assignees", "todos"] →
      (flushChangeEvents (["todos", "assignees", "todos"].foldl
        queueChangeEvent ChangeInfo.idle) []).1.count p = 1) :=
  claim_c2_batching ["todos", "assignees", "todos"] _ (by decide) rfl

theorem assocFind_caches_cleared (l : List (String × Cache)) (k : String) :
    ((assocFind (l.map fun kv => (kv.1, ([] : Cache))) k).getD []) =
      ([] : Cache) := by
  induction l with
  | nil => rfl
  | cons kv rest ih =>
      by_cases h : kv.1 = k <;> simp [assocFind, h, ih]

/-- Claim C3: `hydrate(S)` replaces the whole state tree so that `getState()`
holds the same data as `S` (the shallow clone preserves every entry),
invalidates every scope's cached method results — every registered
cache-clearing closure runs, so any method call made after `hydrate`
re-invokes its body against the live hydrated state rather than replaying a
stale cached result — and, when no other write is pending, the flush that
follows emits `modified = ["*"]`. -/
theorem claim_c3_hydrate_invalidates_caches (fresh : Nat) (st : StoreState)
    (rs : Nat) (fs : Bool) (es : JSEntries)
    (hq : st.info.eventQueue = []) :
    stripMeta (storeHydrate fresh st (.container rs false fs es)).internalState =
      stripMeta (.container rs false fs es) ∧
    (∀ (path name : String) (func : JSVal → List JSVal → JSVal)
        (args : List JSVal),
      (storeMethodCall (storeHydrate fresh st (.container rs false fs es))
          path name func args).2.2 = true ∧
      (storeMethodCall (storeHydrate fresh st (.container rs false fs es))
          path name func args).1 =
        func (storeHydrate fresh st
          (.container rs false fs es)).internalState args) ∧
    (flushChangeEvents (storeHydrate fresh st
        (.container rs false fs es)).info []).1 = ["*"] := by
  refine ⟨rfl, ?_, ?_⟩
  · intro path name func args
    have hcache : ((assocFind (storeHydrate fresh st
        (.container rs false fs es)).caches path).getD []) = ([] : Cache) :=
      assocFind_caches_cleared st.caches path
    constructor <;>
      simp [storeMethodCall, hcache, scopeMethodCall, isCacheInvalid,
        assocFind]
  · show (queueChangeEvent st.info "*").eventQueue = ["*"]
    rw [eventQueue_queueChangeEvent, hq]
    rfl

/-- Witness for claim C3 at the concrete hydrate scenario: after the getter of
scope `scope` cached the old container, `hydrate({scope: {test: false}})`
wipes the caches, so the next getter call re-invokes its body against the
hydrated state, and the pending flush emits `["*"]`. -/
theorem claim_c3_hydrate_invalidates_caches_witness :
    stripMeta c3Hydrated.internalState = stripMeta c3NewVal ∧
    (c3Second.2.2 = true ∧
     c3Second.1 = c3Getter c3Hydrated.internalState []) ∧
    (flushChangeEvents c3Hydrated.info []).1 = ["*"] :=
  ⟨(claim_c3_hydrate_invalidates_caches 20 c3AfterFirst 10 false
      (.cons "scope" (.container 11 false false
        (.cons "test" (.bool false) .nil)) .nil) (by decide)).1,
   (claim_c3_hydrate_invalidates_caches 20 c3AfterFirst 10 false
      (.cons "scope" (.container 11 false false
        (.cons "test" (.bool false) .nil)) .nil) (by decide)).2.1
      "scope" "get" c3Getter [],
   (claim_c3_hydrate_invalidates_caches 20 c3AfterFirst 10 false
      (.cons "scope" (.container 11 false false
        (.cons "test" (.bool false) .nil)) .nil) (by decide)).2.2⟩

/-- Claim C4: on an ordinary (writable) store, `set(v)` throws synchronously —
and the write does not occur — when `v` is a non-null object or array
reference-identical to the value currently stored at the scope's path; while
`set(p)` with `p` the unchanged primitive currently stored is a silent no-op:
the value does not differ, so `setState` returns before writing — no
exception, the store comes back with every component unchanged (same state,
same caches, same notifier record: no `update` notification is enqueued). -/
theorem claim_c4_same_reference_rejection (fresh : Nat) (st : StoreState)
    (path : String) (value : JSVal) (hdw : st.disallowWrite = false) :
    ((truthy value && isObjType value &&
        jsStrictEq value (nifeGet st.internalState path)) = true →
      storeSet fresh st path value = .thrown sameValueMsg) ∧
    (isObjType value = false → value = nifeGet st.internalState path →
      storeSet fresh st path value = .noop st) := by
  constructor
  · intro h
    simp [storeSet, scopeSet, hdw, h]
  · intro hobj heq
    have hguard : (truthy value && isObjType value &&
        jsStrictEq value (nifeGet st.internalState path)) = false := by
      rw [hobj]
      simp
    have hdiff : propsDiffer value (nifeGet st.internalState path) = false := by
      rw [← heq]
      cases value <;> simp_all [propsDiffer, isObjType, jsStrictEq]
    simp [storeSet, scopeSet, hdw, hguard, hdiff]

/-- Witness for claim C4: writing the stored object `{x: 1}` back to `scope`
by the same reference throws, and writing the unchanged primitive `5` back to
`scope` silently returns the store unchanged. -/
theorem claim_c4_same_reference_rejection_witness :
    storeSet 7 ⟨c4WState, [], ChangeInfo.idle, false, false⟩ "scope"
      c4ObjVal = .thrown sameValueMsg ∧
    storeSet 9 ⟨c4State, [], ChangeInfo.idle, false, false⟩ "scope"
      (.num 5) = .noop ⟨c4State, [], ChangeInfo.idle, false, false⟩ :=
  ⟨(claim_c4_same_reference_rejection 7
      ⟨c4WState, [], ChangeInfo.idle, false, false⟩ "scope" c4ObjVal rfl).1
      (by decide),
   (claim_c4_same_reference_rejection 9
      ⟨c4State, [], ChangeInfo.idle, false, false⟩ "scope" (.num 5) rfl).2
      (by decide) (by decide)⟩

/-- Claim C6: `createStore` recognizes an options argument whose
`emitOnFetch` flag defaults to off (an absent options object or flag fails the
strict test against `true`), and a scope read emits the `fetchScope` event
exactly when the store was configured with `emitOnFetch: true` — by default a
read emits nothing. -/
theorem claim_c6_fetch_event_opt_in (st : StoreState) (path : String) :
    storeEmitOnFetch none = false ∧
    (st.emitOnFetch = false → (scopeGet st path).1 = []) ∧
    (st.emitOnFetch = true → (scopeGet st path).1 = [path]) := by
  refine ⟨rfl, ?_, ?_⟩ <;> intro h <;> simp [scopeGet, h]

/-- Witness for claim C6: on the default-configured store a read of `todos`
emits nothing; on the store configured with `emitOnFetch: true` it emits one
`fetchScope` event naming `todos`. -/
theorem claim_c6_fetch_event_opt_in_witness :
    storeEmitOnFetch none = false ∧
    (scopeGet c6Store "todos").1 = [] ∧
    (scopeGet c6FetchStore "todos").1 = ["todos"] :=
  ⟨(claim_c6_fetch_event_opt_in c6Store "todos").1,
   (claim_c6_fetch_event_opt_in c6Store "todos").2.1 rfl,
   (claim_c6_fetch_event_opt_in c6FetchStore "todos").2.2 rfl⟩

/-! ## Lemmas about strict equality and the method cache -/

theorem jsStrictEq_refl (a : JSVal) : jsStrictEq a a = true := by
  cases a <;> simp [jsStrictEq]

theorem jsStrictEq_symm (a b : JSVal) : jsStrictEq a b = jsStrictEq b a := by
  cases a <;> cases b <;> simp [jsStrictEq] <;> exact ⟨fun h => h.symm, fun h => h.symm⟩

theorem jsStrictEq_trans (a b c : JSVal) (hab : jsStrictEq a b = true)
    (hbc : jsStrictEq b c = true) : jsStrictEq a c = true := by
  cases a <;> cases b <;> cases c <;> simp_all [jsStrictEq]

theorem argsMatch_refl (as : List JSVal) : argsMatch as as = true := by
  induction as with
  | nil => rfl
  | cons a as ih => simp [argsMatch, jsStrictEq_refl, ih]

theorem argsMatch_symm (as : List JSVal) :
    ∀ bs : List JSVal, argsMatch as bs = argsMatch bs as := by
  induction as with
  | nil => intro bs; cases bs <;> simp [argsMatch]
  | cons a as ih =>
      intro bs
      cases bs with
      | nil => simp [argsMatch]
      | cons b bs => simp [argsMatch, jsStrictEq_symm a b, ih bs]

theorem argsMatch_trans (as : List JSVal) :
    ∀ bs cs : List JSVal, argsMatch as bs = true → argsMatch bs cs = true →
      argsMatch as cs = true := by
  induction as with
  | nil =>
      intro bs cs hab hbc
      cases bs <;> cases cs <;> simp_all [argsMatch]
  | cons a as ih =>
      intro bs cs hab hbc
      cases bs with
      | nil => simp [argsMatch] at hab
      | cons b bs =>
          cases cs with
          | nil => simp [argsMatch] at hbc
          | cons c cs =>
              simp only [argsMatch, Bool.and_eq_true] at hab hbc ⊢
              exact ⟨jsStrictEq_trans a b c hab.1 hbc.1, ih bs cs hab.2 hbc.2⟩

theorem assocFind_assocSet_self {α : Type} (l : List (String × α)) (k : String)
    (v : α) : assocFind (assocSet l k v) k = some v := by
  induction l with
  | nil => simp [assocSet, assocFind]
  | cons kv rest ih =>
      by_cases h : kv.1 = k <;> simp [assocSet, assocFind, h, ih]

theorem assocFind_assocSet_ne {α : Type} (l : List (String × α))
    (k k2 : String) (v : α) (h : k2 ≠ k) :
    assocFind (assocSet l k v) k2 = assocFind l k2 := by
  induction l with
  | nil =>
      simp only [assocSet, assocFind]
      rw [if_neg fun hh => h hh.symm]
  | cons kv rest ih =>
      obtain ⟨k0, v0⟩ := kv
      simp only [assocSet]
      by_cases hk : k0 = k
      · rw [if_pos hk]
        simp only [assocFind]
        have hne : ¬k0 = k2 := fun hh => h (hh.symm.trans hk)
        rw [if_neg hne, if_neg hne]
      · rw [if_neg hk]
        simp only [assocFind]
        by_cases hk2 : k0 = k2
        · rw [if_pos hk2, if_pos hk2]
        · rw [if_neg hk2, if_neg hk2, ih]

theorem scopeMethodCall_hit (func : JSVal → List JSVal → JSVal) (state : JSVal)
    (c : Cache) (name : String) (args : List JSVal) (e : CacheEntry)
    (hfind : assocFind c name = some e)
    (hm : argsMatch e.args args = true) :
    scopeMethodCall func state c name args = (e.result, c, false) := by
  have hinv : isCacheInvalid c name args = false := by
    simp [isCacheInvalid, hfind, hm]
  simp [scopeMethodCall, hinv, hfind]

theorem scopeMethodCall_miss (func : JSVal → List JSVal → JSVal)
    (state : JSVal) (c : Cache) (name : String) (args : List JSVal)
    (hinv : isCacheInvalid c name args = true) :
    scopeMethodCall func state c name args =
      (func state args, setCache c name args (func state args), true) := by
  simp [scopeMethodCall, hinv]

theorem scopeMethodCall_cache (func : JSVal → List JSVal → JSVal)
    (state : JSVal) (c0 : Cache) (name : String) (args : List JSVal) :
    ∃ e : CacheEntry,
      assocFind (scopeMethodCall func state c0 name args).2.1 name = some e ∧
      argsMatch e.args args = true ∧
      (scopeMethodCall func state c0 name args).1 = e.result := by
  by_cases hinv : isCacheInvalid c0 name args = true
  · refine ⟨⟨args, func state args⟩, ?_, argsMatch_refl args, ?_⟩
    · rw [scopeMethodCall_miss func state c0 name args hinv]
      exact assocFind_assocSet_self c0 name _
    · rw [scopeMethodCall_miss func state c0 name args hinv]
  · cases hfind : assocFind c0 name with
    | none => exact absurd (by simp [isCacheInvalid, hfind]) hinv
    | some e =>
        have hm : argsMatch e.args args = true := by
          cases hmm : argsMatch e.args args with
          | true => rfl
          | false => exact absurd (by simp [isCacheInvalid, hfind, hmm]) hinv
        refine ⟨e, ?_, hm, ?_⟩ <;>
          rw [scopeMethodCall_hit func state c0 name args e hfind hm]
        exact hfind

/-- Claim C5: for a scope method, a second call whose argument list compares
equal element-wise (strict equality: identity for objects, value equality for
primitives) to the first call's, with no intervening `set` to the scope,
returns the identical cached result without re-invoking the body; a call whose
argument list does not compare equal re-invokes the body; and a call made
after an intervening `set` to the scope (which wipes the scope's cache)
re-invokes the body. -/
theorem claim_c5_cache_coherence (func : JSVal → List JSVal → JSVal)
    (state : JSVal) (c0 : Cache) (name : String) (args args2 : List JSVal) :
    (argsMatch args args2 = true →
      (scopeMethodCall func state (scopeMethodCall func state c0 name args).2.1
          name args2).1 = (scopeMethodCall func state c0 name args).1 ∧
      (scopeMethodCall func state (scopeMethodCall func state c0 name args).2.1
          name args2).2.2 = false) ∧
    (argsMatch args args2 = false →
      (scopeMethodCall func state (scopeMethodCall func state c0 name args).2.1
          name args2).2.2 = true) ∧
    (scopeMethodCall func state [] name args).2.2 = true := by
  obtain ⟨e, hfind, hm, hres⟩ := scopeMethodCall_cache func state c0 name args
  refine ⟨?_, ?_, ?_⟩
  · intro h
    have he2 : argsMatch e.args args2 = true := argsMatch_trans _ _ _ hm h
    rw [scopeMethodCall_hit func state _ name args2 e hfind he2]
    exact ⟨hres.symm, rfl⟩
  · intro h
    have he2 : argsMatch e.args args2 = false := by
      cases hcc : argsMatch e.args args2
      · rfl
      · exfalso
        have h1 : argsMatch args e.args = true := by
          rw [argsMatch_symm]; exact hm
        have := argsMatch_trans args e.args args2 h1 hcc
        rw [this] at h
        exact Bool.noConfusion h
    have hinv2 : isCacheInvalid
        (scopeMethodCall func state c0 name args).2.1 name args2 = true := by
      simp [isCacheInvalid, hfind, he2]
    rw [scopeMethodCall_miss func state _ name args2 hinv2]
  · rw [scopeMethodCall_miss func state [] name args rfl]

/-- Witness for claim C5 at a concrete getter, concrete store state and
concrete argument lists. -/
theorem claim_c5_cache_coherence_witness :
    ((scopeMethodCall c5F c5State
        (scopeMethodCall c5F c5State [] "get" [.num 1]).2.1 "get" [.num 1]).1 =
      (scopeMethodCall c5F c5State [] "get" [.num 1]).1 ∧
     (scopeMethodCall c5F c5State
        (scopeMethodCall c5F c5State [] "get" [.num 1]).2.1 "get"
        [.num 1]).2.2 = false) ∧
    (scopeMethodCall c5F c5State
        (scopeMethodCall c5F c5State [] "get" [.num 1]).2.1 "get"
        [.num 2]).2.2 = true ∧
    (scopeMethodCall c5F c5State [] "get" [.num 3]).2.2 = true :=
  ⟨(claim_c5_cache_coherence c5F c5State [] "get" [.num 1] [.num 1]).1
      (by decide),
   (claim_c5_cache_coherence c5F c5State [] "get" [.num 1] [.num 2]).2.1
      (by decide),
   (claim_c5_cache_coherence c5F c5State [] "get" [.num 3] [.num 3]).2.2⟩

/-! ## The clone operator claim -/

theorem JSEntries.find_set_self :
    ∀ (es : JSEntries) (k : String) (v : JSVal), (es.set k v).find k = some v
  | .nil, k, v => by simp [JSEntries.set, JSEntries.find]
  | .cons k0 v0 rest, k, v => by
      by_cases h : k0 = k <;>
        simp [JSEntries.set, JSEntries.find, h, find_set_self rest k v]

theorem JSEntries.find_set_ne :
    ∀ (es : JSEntries) (k k2 : String) (v : JSVal), k2 ≠ k →
      (es.set k v).find k2 = es.find k2
  | .nil, k, k2, v, h => by
      simp only [JSEntries.set, JSEntries.find]
      rw [if_neg fun hh => h hh.symm]
  | .cons k0 v0 rest, k, k2, v, h => by
      simp only [JSEntries.set]
      by_cases hk : k0 = k
      · rw [if_pos hk]
        simp only [JSEntries.find]
        have hne : ¬k0 = k2 := fun hh => h (hh.symm.trans hk)
        rw [if_neg hne, if_neg hne]
      · rw [if_neg hk]
        simp only [JSEntries.find]
        by_cases hk2 : k0 = k2
        · rw [if_pos hk2, if_pos hk2]
        · rw [if_neg hk2, if_neg hk2, find_set_ne rest k k2 v h]

theorem getKey_freezeVal (v : JSVal) (k : String) :
    getKey (freezeVal v) k = getKey v k := by
  cases v <;> rfl

theorem getKey_setKey_ne (cur : JSVal) (k k2 : String) (v : JSVal)
    (h : k2 ≠ k) : getKey (setKey cur k v) k2 = getKey cur k2 := by
  cases cur with
  | container r a f es =>
      simp [setKey, getKey, JSEntries.find_set_ne es k k2 v h]
  | undefined => rfl
  | vnull => rfl
  | bool b => rfl
  | num n => rfl
  | str s => rfl

theorem getKey_setKey_self (r : Nat) (a f : Bool) (es : JSEntries)
    (k : String) (v : JSVal) :
    getKey (setKey (.container r a f es) k v) k = v := by
  simp [setKey, getKey, JSEntries.find_set_self]

theorem getKey_setPathAux_ne (fresh : Nat) (cur : JSVal) (p : String)
    (rest : List String) (value : JSVal) (k : String) (hk : k ≠ p) :
    getKey (setPathAux fresh cur (p :: rest) value) k = getKey cur k := by
  cases rest with
  | nil =>
      simp only [setPathAux]
      rw [getKey_freezeVal, getKey_setKey_ne _ _ _ _ hk]
  | cons q rest2 =>
      simp only [setPathAux]
      rw [getKey_freezeVal, getKey_setKey_ne _ _ _ _ hk]

/-- Claim C8: a write through `setPath` shares every sibling subtree with the
previous tree.  For an object root, every top-level key other than the head of
the written path reads back the identical value (same references included)
before and after the write; and when the path descends into an object child,
every key of that child other than the next path segment likewise reads back
the identical value. -/
theorem claim_c8_structural_sharing (fresh r : Nat) (fz : Bool)
    (es : JSEntries) (path : String) (value : JSVal) (p0 : String)
    (rest : List String) (hsplit : splitSegs path = p0 :: rest) :
    (∀ k, k ≠ p0 →
      getKey (setPath fresh (.container r false fz es) path value) k =
        getKey (.container r false fz es) k) ∧
    (∀ (q : String) (rest2 : List String) (r1 : Nat) (f1 : Bool)
        (es1 : JSEntries) (k2 : String), rest = q :: rest2 →
      getKey (JSVal.container r false fz es) p0 = .container r1 false f1 es1 →
      k2 ≠ q →
      getKey (getKey (setPath fresh (.container r false fz es) path value) p0)
          k2 =
        getKey (getKey (.container r false fz es) p0) k2) := by
  constructor
  · intro k hk
    rw [setPath, hsplit]
    have hclone : clone fresh (JSVal.container r false fz es) =
        .container fresh false false es := rfl
    rw [hclone, getKey_setPathAux_ne _ _ _ _ _ _ hk]
    rfl
  · intro q rest2 r1 f1 es1 k2 hrest hmid hk2
    subst hrest
    rw [setPath, hsplit]
    have hclone : clone fresh (JSVal.container r false fz es) =
        .container fresh false false es := rfl
    rw [hclone]
    simp only [setPathAux]
    rw [getKey_freezeVal, getKey_setKey_self]
    have hmid' : getKey (JSVal.container fresh false false es) p0 =
        JSVal.container r1 false f1 es1 := hmid
    rw [hmid', hmid]
    have hcloneMid : clone (fresh + 1)
        (JSVal.container r1 false f1 es1) = .container (fresh + 1) false
          false es1 := rfl
    rw [hcloneMid, getKey_setPathAux_ne _ _ _ _ _ _ hk2]
    rfl

/-- Witness for claim C8: writing `9` at `a.b` in
`{a: {b: 1, c: 2}, d: 3}` leaves the sibling `d` and the nested sibling `a.c`
reading back unchanged. -/
theorem claim_c8_structural_sharing_witness :
    getKey (setPath 10 (.container 0 false true
      (.cons "a" (.container 1 false true
        (.cons "b" (.num 1) (.cons "c" (.num 2) .nil)))
        (.cons "d" (.num 3) .nil))) "a.b" (.num 9)) "d" =
      getKey (.container 0 false true
        (.cons "a" (.container 1 false true
          (.cons "b" (.num 1) (.cons "c" (.num 2) .nil)))
          (.cons "d" (.num 3) .nil))) "d" ∧
    getKey (getKey (setPath 10 (.container 0 false true
      (.cons "a" (.container 1 false true
        (.cons "b" (.num 1) (.cons "c" (.num 2) .nil)))
        (.cons "d" (.num 3) .nil))) "a.b" (.num 9)) "a") "c" =
      getKey (getKey (.container 0 false true
        (.cons "a" (.container 1 false true
          (.cons "b" (.num 1) (.cons "c" (.num 2) .nil)))
          (.cons "d" (.num 3) .nil))) "a") "c" :=
  ⟨(claim_c8_structural_sharing 10 0 true
      (.cons "a" (.container 1 false true
        (.cons "b" (.num 1) (.cons "c" (.num 2) .nil)))
        (.cons "d" (.num 3) .nil)) "a.b" (.num 9) "a" ["b"] (by decide)).1
      "d" (by decide),
   (claim_c8_structural_sharing 10 0 true
      (.cons "a" (.container 1 false true
        (.cons "b" (.num 1) (.cons "c" (.num 2) .nil)))
        (.cons "d" (.num 3) .nil)) "a.b" (.num 9) "a" ["b"] (by decide)).2
      "b" [] 1 true (.cons "b" (.num 1) (.cons "c" (.num 2) .nil)) "c"
      rfl (by decide) (by decide)⟩

/-! ## Lemmas about the freeze boundary -/

theorem frozenAlong_cons (v : JSVal) (p : String) (rest : List String) :
    frozenAlong v (p :: rest) = (isFrozenVal v && frozenAlong (getKey v p) rest) :=
  rfl

theorem getSegs_cons (v : JSVal) (p : String) (rest : List String) :
    getSegs v (p :: rest) = getSegs (getKey v p) rest :=
  rfl

theorem isContainerVal_truthy_obj (v : JSVal) (h : isContainerVal v = true) :
    (truthy v && isObjType v) = true := by
  cases v <;> simp_all [isContainerVal, truthy, isObjType]

theorem isFrozenVal_freezeVal (v : JSVal) (h : isContainerVal v = true) :
    isFrozenVal (freezeVal v) = true := by
  cases v <;> simp_all [isContainerVal, freezeVal, isFrozenVal]

theorem copyKeysToArray_isContainer (value old : JSVal)
    (h : isContainerVal value = true) :
    isContainerVal (copyKeysToArray value old) = true := by
  cases value with
  | container r a f es =>
      cases a <;> cases old <;> simp [copyKeysToArray, isContainerVal]
  | undefined => simp [isContainerVal] at h
  | vnull => simp [isContainerVal] at h
  | bool b => simp [isContainerVal] at h
  | num n => simp [isContainerVal] at h
  | str s => simp [isContainerVal] at h

theorem find_assignNonIndex_index :
    ∀ (t s : JSEntries) (k : String), isIndexKey k = true →
      (t.assignNonIndex s).find k = t.find k
  | _, .nil, _, _ => rfl
  | t, .cons k0 v0 rest, k, hk => by
      simp only [JSEntries.assignNonIndex]
      by_cases h0 : isIndexKey k0
      · rw [if_pos h0]
        exact find_assignNonIndex_index t rest k hk
      · rw [if_neg h0]
        rw [find_assignNonIndex_index _ rest k hk]
        exact JSEntries.find_set_ne t k0 k v0 fun he => h0 (he.symm ▸ hk)

theorem find_assignNonIndex_absent :
    ∀ (t s : JSEntries) (k : String), s.hasKey k = false →
      (t.assignNonIndex s).find k = t.find k
  | _, .nil, _, _ => rfl
  | t, .cons k0 v0 rest, k, h => by
      by_cases h0 : k0 = k
      · exfalso
        simp [JSEntries.hasKey, JSEntries.find, h0] at h
      · have hrest : rest.hasKey k = false := by
          simpa [JSEntries.hasKey, JSEntries.find, h0] using h
        simp only [JSEntries.assignNonIndex]
        by_cases hidx : isIndexKey k0
        · rw [if_pos hidx]
          exact find_assignNonIndex_absent t rest k hrest
        · rw [if_neg hidx, find_assignNonIndex_absent _ rest k hrest]
          exact JSEntries.find_set_ne t k0 k v0 fun he => h0 he.symm

theorem find_assignNonIndex_present :
    ∀ (t s : JSEntries) (k : String) (v : JSVal), isIndexKey k = false →
      s.find k = some v → nodupKeys s = true →
      (t.assignNonIndex s).find k = some v
  | _, .nil, k, v, _, hfind, _ => by simp [JSEntries.find] at hfind
  | t, .cons k0 v0 rest, k, v, hk, hfind, hnd => by
      have hnd1 : rest.hasKey k0 = false ∧ nodupKeys rest = true := by
        simpa [nodupKeys, Bool.and_eq_true] using hnd
      simp only [JSEntries.assignNonIndex]
      by_cases h0 : k0 = k
      · have hv : v0 = v := by simpa [JSEntries.find, h0] using hfind
        have hidx0 : isIndexKey k0 = false := by rw [h0]; exact hk
        rw [if_neg (by simp [hidx0])]
        rw [find_assignNonIndex_absent _ rest k (h0 ▸ hnd1.1)]
        rw [h0, JSEntries.find_set_self, hv]
      · have hfind2 : rest.find k = some v := by
          simpa [JSEntries.find, h0] using hfind
        by_cases hidx : isIndexKey k0
        · rw [if_pos hidx]
          exact find_assignNonIndex_present t rest k v hk hfind2 hnd1.2
        · rw [if_neg hidx]
          exact find_assignNonIndex_present _ rest k v hk hfind2 hnd1.2

theorem filterIndex_find_index :
    ∀ (es : JSEntries) (k : String), isIndexKey k = true →
      es.filterIndex.find k = es.find k
  | .nil, _, _ => rfl
  | .cons k0 v0 rest, k, hk => by
      simp only [JSEntries.filterIndex]
      by_cases h0 : isIndexKey k0
      · rw [if_pos h0]
        simp only [JSEntries.find]
        by_cases hk0 : k0 = k
        · rw [if_pos hk0, if_pos hk0]
        · rw [if_neg hk0, if_neg hk0]
          exact filterIndex_find_index rest k hk
      · rw [if_neg h0]
        have hk0 : ¬k0 = k := fun he => h0 (he.symm ▸ hk)
        rw [filterIndex_find_index rest k hk]
        simp [JSEntries.find, hk0]

theorem filterIndex_find_none :
    ∀ (es : JSEntries) (k : String), isIndexKey k = false →
      es.filterIndex.find k = none
  | .nil, _, _ => rfl
  | .cons k0 v0 rest, k, hk => by
      simp only [JSEntries.filterIndex]
      by_cases h0 : isIndexKey k0
      · rw [if_pos h0]
        simp only [JSEntries.find]
        have hk0 : ¬k0 = k := fun he => by simp [he, hk] at h0
        rw [if_neg hk0]
        exact filterIndex_find_none rest k hk
      · rw [if_neg h0]
        exact filterIndex_find_none rest k hk

theorem find_cloneArray (es : JSEntries) (hnd : nodupKeys es = true)
    (k : String) :
    (es.filterIndex.assignNonIndex es).find k = es.find k := by
  by_cases hk : isIndexKey k
  · rw [find_assignNonIndex_index _ _ _ hk, filterIndex_find_index _ _ hk]
  · have hk2 : isIndexKey k = false := Bool.eq_false_iff.mpr hk
    cases hfind : es.find k with
    | some v => exact find_assignNonIndex_present _ _ _ _ hk2 hfind hnd
    | none =>
        have habs : es.hasKey k = false := by
          simp [JSEntries.hasKey, hfind]
        rw [find_assignNonIndex_absent _ _ _ habs,
          filterIndex_find_none _ _ hk2]

theorem getKey_clone (fc r : Nat) (a f : Bool) (es : JSEntries)
    (hnd : nodupKeys es = true) (k : String) :
    getKey (clone fc (.container r a f es)) k =
      getKey (.container r a f es) k := by
  cases a
  · rfl
  · show ((es.filterIndex.assignNonIndex es).find k).getD _ = _
    rw [find_cloneArray es hnd k]
    rfl

theorem clone_container (fc r : Nat) (a f : Bool) (es : JSEntries) :
    ∃ ces, clone fc (.container r a f es) = .container fc a false ces := by
  cases a
  · exact ⟨es, rfl⟩
  · exact ⟨es.filterIndex.assignNonIndex es, rfl⟩

theorem getKey_copyKeysToArray_index (value source : JSVal) (k : String)
    (hk : isIndexKey k = true) :
    getKey (copyKeysToArray value source) k = getKey value k := by
  cases value with
  | container r a f es =>
      cases a
      · cases source <;> rfl
      · cases source with
        | container r2 a2 f2 ses =>
            show ((es.assignNonIndex ses).find k).getD _ = _
            rw [find_assignNonIndex_index es ses k hk]
            rfl
        | undefined => rfl
        | vnull => rfl
        | bool b => rfl
        | num n => rfl
        | str s => rfl
  | undefined => rfl
  | vnull => rfl
  | bool b => rfl
  | num n => rfl
  | str s => rfl

theorem getKey_container_set_self (r : Nat) (a f : Bool) (es : JSEntries)
    (p : String) (v : JSVal) :
    getKey (.container r a f (es.set p v)) p = v := by
  simp [getKey, JSEntries.find_set_self]

theorem setPathAux_single (fa cr : Nat) (ca : Bool) (ces : JSEntries)
    (p : String) (value : JSVal) (hv : isContainerVal value = true) :
    setPathAux fa (.container cr ca false ces) [p] value =
      .container cr ca true (ces.set p (freezeVal
        (if isArrayVal value
         then copyKeysToArray value (getKey (.container cr ca false ces) p)
         else value))) ∧
    isContainerVal (if isArrayVal value
      then copyKeysToArray value (getKey (.container cr ca false ces) p)
      else value) = true := by
  have hcont : isContainerVal (if isArrayVal value
      then copyKeysToArray value (getKey (.container cr ca false ces) p)
      else value) = true := by
    by_cases ha : isArrayVal value
    · rw [if_pos ha]
      exact copyKeysToArray_isContainer _ _ hv
    · rw [if_neg ha]
      exact hv
  refine ⟨?_, hcont⟩
  have hguard := isContainerVal_truthy_obj _ hcont
  simp only [setPathAux]
  rw [hguard]
  simp [setKey, freezeVal]

theorem setPathAux_freeze :
    ∀ (parts : List String) (fc fa : Nat) (mid value : JSVal),
      spineOK mid parts = true → parts ≠ [] → isContainerVal value = true →
      frozenAlong (setPathAux fa (clone fc mid) parts value) parts = true ∧
      ∃ oldv, getSegs (setPathAux fa (clone fc mid) parts value) parts =
        freezeVal (if isArrayVal value then copyKeysToArray value oldv
          else value)
  | [], _, _, _, _ => fun _ hne _ => absurd rfl hne
  | [p], fc, fa, mid, value => fun hspine _ hval => by
      cases mid with
      | container rm am fm esm =>
          obtain ⟨ces, hclone⟩ := clone_container fc rm am fm esm
          obtain ⟨hres, hfv⟩ := setPathAux_single fa fc am ces p value hval
          rw [hclone, hres]
          constructor
          · rw [frozenAlong_cons, getKey_container_set_self]
            simp only [isFrozenVal, Bool.true_and]
            show isFrozenVal (freezeVal _) = true
            exact isFrozenVal_freezeVal _ hfv
          · refine ⟨getKey (JSVal.container fc am false ces) p, ?_⟩
            rw [getSegs_cons, getKey_container_set_self]
            rfl
      | undefined => simp [spineOK] at hspine
      | vnull => simp [spineOK] at hspine
      | bool b => simp [spineOK] at hspine
      | num n => simp [spineOK] at hspine
      | str s => simp [spineOK] at hspine
  | p :: q :: rest, fc, fa, mid, value => fun hspine _ hval => by
      cases mid with
      | container rm am fm esm =>
          have hspine2 : nodupKeys esm = true ∧
              spineOK (getKey (JSVal.container rm am fm esm) p)
                (q :: rest) = true := by
            simpa [spineOK, Bool.and_eq_true] using hspine
          obtain ⟨ces, hclone⟩ := clone_container fc rm am fm esm
          have hgk : getKey (JSVal.container fc am false ces) p =
              getKey (JSVal.container rm am fm esm) p := by
            rw [← hclone]
            exact getKey_clone fc rm am fm esm hspine2.1 p
          obtain ⟨ih1, oldv, ih2⟩ := setPathAux_freeze (q :: rest) fa (fa + 1)
            (getKey (JSVal.container rm am fm esm) p) value hspine2.2
            (by simp) hval
          have hres : setPathAux fa (clone fc (JSVal.container rm am fm esm))
              (p :: q :: rest) value =
                .container fc am true (ces.set p (setPathAux (fa + 1)
                  (clone fa (getKey (JSVal.container rm am fm esm) p))
                  (q :: rest) value)) := by
            rw [hclone]
            show freezeVal (setKey (JSVal.container fc am false ces) p
              (setPathAux (fa + 1) (clone fa
                (getKey (JSVal.container fc am false ces) p))
                  (q :: rest) value)) = _
            rw [hgk]
            rfl
          rw [hres]
          have hget : getKey (JSVal.container fc am true (ces.set p
              (setPathAux (fa + 1) (clone fa (getKey
                (JSVal.container rm am fm esm) p)) (q :: rest) value))) p =
              setPathAux (fa + 1) (clone fa (getKey
                (JSVal.container rm am fm esm) p)) (q :: rest) value := by
            simp [getKey, JSEntries.find_set_self]
          constructor
          · rw [frozenAlong_cons, hget]
            simp [isFrozenVal, ih1]
          · refine ⟨oldv, ?_⟩
            rw [getSegs_cons, hget]
            exact ih2
      | undefined => simp [spineOK] at hspine
      | vnull => simp [spineOK] at hspine
      | bool b => simp [spineOK] at hspine
      | num n => simp [spineOK] at hspine
      | str s => simp [spineOK] at hspine

/-- Claim C9: after any write of a container value — object or array — along
a spine of containers with distinct keys, the container at the written path
and every ancestor container up to the root are frozen (`frozenAlong` checks
the root, each ancestor, and the written node itself).  The values stored
inside the written container are not transitively frozen: for an object value
every entry of the stored node reads back exactly as the caller provided it,
and for an array value every index entry (the array's elements) does — in
particular a plain unfrozen object leaf nested inside the written container,
such as an object element of a written array, stays unfrozen. -/
theorem claim_c9_freeze_boundary (fresh : Nat) (state : JSVal) (path : String)
    (parts : List String) (value : JSVal)
    (hsplit : splitSegs path = parts) (hne : parts ≠ [])
    (hspine : spineOK state parts = true)
    (hval : isContainerVal value = true) :
    frozenAlong (setPath fresh state path value) parts = true ∧
    (isArrayVal value = false →
      (∀ k, getKey (getSegs (setPath fresh state path value) parts) k =
        getKey value k) ∧
      (∀ k, isFrozenVal (getKey (getSegs (setPath fresh state path value)
        parts) k) = isFrozenVal (getKey value k))) ∧
    (isArrayVal value = true →
      (∀ k, isIndexKey k = true →
        getKey (getSegs (setPath fresh state path value) parts) k =
          getKey value k) ∧
      (∀ k, isIndexKey k = true →
        isFrozenVal (getKey (getSegs (setPath fresh state path value)
          parts) k) = isFrozenVal (getKey value k))) := by
  obtain ⟨h1, oldv, h2⟩ := setPathAux_freeze parts fresh (fresh + 1) state
    value hspine hne hval
  rw [setPath, hsplit]
  refine ⟨h1, ?_, ?_⟩
  · intro ha
    have hkey : ∀ k, getKey (getSegs (setPathAux (fresh + 1)
        (clone fresh state) parts value) parts) k = getKey value k := by
      intro k
      rw [h2, ha]
      simp [getKey_freezeVal]
    exact ⟨hkey, fun k => by rw [hkey k]⟩
  · intro ha
    have hkey : ∀ k, isIndexKey k = true →
        getKey (getSegs (setPathAux (fresh + 1)
          (clone fresh state) parts value) parts) k = getKey value k := by
      intro k hk
      rw [h2, ha]
      simp only [if_true]
      rw [getKey_freezeVal, getKey_copyKeysToArray_index _ _ _ hk]
    exact ⟨hkey, fun k hk => by rw [hkey k hk]⟩

/-- Witness for claim C9, covering both container kinds.  Writing the fresh
object `{z: {w: 1}}` at `a.b` in `{a: {b: 0}}` freezes the root, the scope
container `a` and the written container, while the nested leaf object at key
`z` stays exactly as provided — unfrozen.  Writing the fresh array
`[{name: "t"}]` at `todos` in `{todos: []}` freezes the root and the written
array, while the object element at index `0` stays exactly as provided —
unfrozen. -/
theorem claim_c9_freeze_boundary_witness :
    frozenAlong (setPath 10 (.container 0 false true
      (.cons "a" (.container 1 false true (.cons "b" (.num 0) .nil)) .nil))
      "a.b" (.container 30 false false
        (.cons "z" (.container 31 false false (.cons "w" (.num 1) .nil))
          .nil))) ["a", "b"] = true ∧
    getKey (getSegs (setPath 10 (.container 0 false true
      (.cons "a" (.container 1 false true (.cons "b" (.num 0) .nil)) .nil))
      "a.b" (.container 30 false false
        (.cons "z" (.container 31 false false (.cons "w" (.num 1) .nil))
          .nil))) ["a", "b"]) "z" =
      getKey (.container 30 false false
        (.cons "z" (.container 31 false false (.cons "w" (.num 1) .nil))
          .nil)) "z" ∧
    isFrozenVal (getKey (getSegs (setPath 10 (.container 0 false true
      (.cons "a" (.container 1 false true (.cons "b" (.num 0) .nil)) .nil))
      "a.b" (.container 30 false false
        (.cons "z" (.container 31 false false (.cons "w" (.num 1) .nil))
          .nil))) ["a", "b"]) "z") =
      isFrozenVal (getKey (.container 30 false false
        (.cons "z" (.container 31 false false (.cons "w" (.num 1) .nil))
          .nil)) "z") ∧
    frozenAlong (setPath 50 (.container 0 false true
      (.cons "todos" (.container 1 true true .nil) .nil))
      "todos" (.container 20 true false
        (.cons "0" (.container 21 false false
          (.cons "name" (.str "t") .nil)) .nil))) ["todos"] = true ∧
    getKey (getSegs (setPath 50 (.container 0 false true
      (.cons "todos" (.container 1 true true .nil) .nil))
      "todos" (.container 20 true false
        (.cons "0" (.container 21 false false
          (.cons "name" (.str "t") .nil)) .nil))) ["todos"]) "0" =
      getKey (.container 20 true false
        (.cons "0" (.container 21 false false
          (.cons "name" (.str "t") .nil)) .nil)) "0" ∧
    isFrozenVal (getKey (getSegs (setPath 50 (.container 0 false true
      (.cons "todos" (.container 1 true true .nil) .nil))
      "todos" (.container 20 true false
        (.cons "0" (.container 21 false false
          (.cons "name" (.str "t") .nil)) .nil))) ["todos"]) "0") =
      isFrozenVal (getKey (.container 20 true false
        (.cons "0" (.container 21 false false
          (.cons "name" (.str "t") .nil)) .nil)) "0") :=
  ⟨(claim_c9_freeze_boundary 10 (.container 0 false true
      (.cons "a" (.container 1 false true (.cons "b" (.num 0) .nil)) .nil))
      "a.b" ["a", "b"] (.container 30 false false
        (.cons "z" (.container 31 false false (.cons "w" (.num 1) .nil))
          .nil)) (by decide) (by decide) (by decide) (by decide)).1,
   ((claim_c9_freeze_boundary 10 (.container 0 false true
      (.cons "a" (.container 1 false true (.cons "b" (.num 0) .nil)) .nil))
      "a.b" ["a", "b"] (.container 30 false false
        (.cons "z" (.container 31 false false (.cons "w" (.num 1) .nil))
          .nil)) (by decide) (by decide) (by decide) (by decide)).2.1
      (by decide)).1 "z",
   ((claim_c9_freeze_boundary 10 (.container 0 false true
      (.cons "a" (.container 1 false true (.cons "b" (.num 0) .nil)) .nil))
      "a.b" ["a", "b"] (.container 30 false false
        (.cons "z" (.container 31 false false (.cons "w" (.num 1) .nil))
          .nil)) (by decide) (by decide) (by decide) (by decide)).2.1
      (by decide)).2 "z",
   (claim_c9_freeze_boundary 50 (.container 0 false true
      (.cons "todos" (.container 1 true true .nil) .nil))
      "todos" ["todos"] (.container 20 true false
        (.cons "0" (.container 21 false false
          (.cons "name" (.str "t") .nil)) .nil))
      (by decide) (by decide) (by decide) (by decide)).1,
   ((claim_c9_freeze_boundary 50 (.container 0 false true
      (.cons "todos" (.container 1 true true .nil) .nil))
      "todos" ["todos"] (.container 20 true false
        (.cons "0" (.container 21 false false
          (.cons "name" (.str "t") .nil)) .nil))
      (by decide) (by decide) (by decide) (by decide)).2.2
      (by decide)).1 "0" (by decide),
   ((claim_c9_freeze_boundary 50 (.container 0 false true
      (.cons "todos" (.container 1 true true .nil) .nil))
      "todos" ["todos"] (.container 20 true false
        (.cons "0" (.container 21 false false
          (.cons "name" (.str "t") .nil)) .nil))
      (by decide) (by decide) (by decide) (by decide)).2.2
      (by decide)).2 "0" (by decide)⟩


/-! ## The cache frame of a sub-scope write -/

theorem containerRef_setPathAux_single (fresh r : Nat) (a f : Bool)
    (es : JSEntries) (q : String) (value : JSVal) :
    containerRef (setPathAux fresh (.container r a f es) [q] value) = some r :=
  rfl

/-- Claim C10: a write to a nested sub-scope path `P.Q` wipes only the
sub-scope's own cache: the parent scope `P` keeps all its cache entries even
though the write replaced the container stored at `P` with a new clone (a
container with a fresh reference), so a cached method of `P` with matching
arguments still replays its stale stored result without re-invoking the
body. -/
theorem claim_c10_subscope_cache_frame (fresh : Nat) (st st2 : StoreState)
    (path p q : String) (value : JSVal) (r0 rp : Nat) (fz0 fzp : Bool)
    (es0 esp : JSEntries)
    (hsplit : splitSegs path = [p, q])
    (hpne : path ≠ p)
    (hroot : st.internalState = .container r0 false fz0 es0)
    (hmid : getKey st.internalState p = .container rp false fzp esp)
    (hguard : (truthy value && isObjType value &&
      jsStrictEq value (nifeGet st.internalState path)) = false)
    (hfresh : rp ≠ fresh + 1)
    (hset : storeSet fresh st path value = .ok st2 value) :
    assocFind st2.caches p = assocFind st.caches p ∧
    assocFind st2.caches path = some [] ∧
    containerRef (getKey st2.internalState p) = some (fresh + 1) ∧
    getKey st2.internalState p ≠ getKey st.internalState p ∧
    (∀ (name : String) (func : JSVal → List JSVal → JSVal)
        (args : List JSVal) (entry : CacheEntry),
      assocFind ((assocFind st.caches p).getD []) name = some entry →
      argsMatch entry.args args = true →
      (storeMethodCall st2 p name func args).1 = entry.result ∧
      (storeMethodCall st2 p name func args).2.2 = false) := by
  by_cases hdw : st.disallowWrite = true
  · exfalso
    simp [storeSet, scopeSet, hdw] at hset
  by_cases hpd : propsDiffer value (nifeGet st.internalState path) = true
  case neg =>
    exfalso
    have hdw2 : st.disallowWrite = false := Bool.eq_false_iff.mpr hdw
    have hpd2 : propsDiffer value (nifeGet st.internalState path) = false :=
      Bool.eq_false_iff.mpr hpd
    simp [storeSet, scopeSet, hdw2, hguard, hpd2] at hset
  have hdw2 : st.disallowWrite = false := Bool.eq_false_iff.mpr hdw
  have hss : storeSet fresh st path value =
      .ok { st with
              internalState := setPath fresh st.internalState path value
              caches := assocSet st.caches path []
              info := queueChangeEvent st.info path } value := by
    simp [storeSet, scopeSet, hdw2, hguard, hpd]
  rw [hss] at hset
  have hst2 : st2 = { st with
      internalState := setPath fresh st.internalState path value
      caches := assocSet st.caches path []
      info := queueChangeEvent st.info path } := by
    injection hset with h1 h2
    exact h1.symm
  subst hst2
  have hpnp : p ≠ path := fun hh => hpne hh.symm
  have hc1 : assocFind (assocSet st.caches path ([] : Cache)) p =
      assocFind st.caches p := assocFind_assocSet_ne _ _ _ _ hpnp
  have hmid' : getKey (JSVal.container fresh false false es0) p =
      .container rp false fzp esp := by
    rw [hroot] at hmid
    exact hmid
  have hnewp : getKey (setPath fresh st.internalState path value) p =
      setPathAux (fresh + 1 + 1) (.container (fresh + 1) false false esp) [q]
        value := by
    rw [setPath, hsplit, hroot]
    show getKey (freezeVal (setKey (JSVal.container fresh false false es0) p
      (setPathAux (fresh + 1 + 1)
        (clone (fresh + 1) (getKey (JSVal.container fresh false false es0) p))
        [q] value))) p = _
    rw [getKey_freezeVal, getKey_setKey_self, hmid']
    rfl
  have hrefp : containerRef (getKey (setPath fresh st.internalState path
      value) p) = some (fresh + 1) := by
    rw [hnewp]
    exact containerRef_setPathAux_single _ _ _ _ _ _ _
  have hneq : getKey (setPath fresh st.internalState path value) p ≠
      getKey st.internalState p := by
    intro heq
    have hcr := containerRef_setPathAux_single (fresh + 1 + 1) (fresh + 1)
      false false esp q value
    rw [← hnewp, heq, hmid] at hcr
    simp [containerRef] at hcr
    exact hfresh hcr
  refine ⟨hc1, assocFind_assocSet_self _ _ _, hrefp, hneq, ?_⟩
  intro name func args entry hentry hargs
  have hit := scopeMethodCall_hit func (setPath fresh st.internalState path
    value) ((assocFind st.caches p).getD []) name args entry hentry hargs
  constructor <;> simp [storeMethodCall, hc1, hit]

/-- Witness for claim C10 on the concrete store `{P: {Q: 1}}` whose parent
scope `P` holds a cached result `42` for method `m`: writing `2` at `P.Q`
leaves `P`'s cache intact and replaying `m` returns the stale `42` without
re-invoking, while the container at `P` was replaced by a new clone. -/
theorem claim_c10_subscope_cache_frame_witness :
    assocFind (⟨.container 10 false true
        (.cons "P" (.container 11 false true (.cons "Q" (.num 2) .nil)) .nil),
      [("P", [("m", ⟨[], .num 42⟩)]), ("P.Q", [])],
      ⟨true, ["P.Q"], 1⟩, false, false⟩ : StoreState).caches "P" =
      assocFind (⟨.container 0 false true
          (.cons "P" (.container 1 false true (.cons "Q" (.num 1) .nil)) .nil),
        [("P", [("m", ⟨[], .num 42⟩)])], ChangeInfo.idle, false, false⟩ : StoreState).caches
        "P" ∧
    assocFind (⟨.container 10 false true
        (.cons "P" (.container 11 false true (.cons "Q" (.num 2) .nil)) .nil),
      [("P", [("m", ⟨[], .num 42⟩)]), ("P.Q", [])],
      ⟨true, ["P.Q"], 1⟩, false, false⟩ : StoreState).caches "P.Q" = some [] ∧
    containerRef (getKey (⟨.container 10 false true
        (.cons "P" (.container 11 false true (.cons "Q" (.num 2) .nil)) .nil),
      [("P", [("m", ⟨[], .num 42⟩)]), ("P.Q", [])],
      ⟨true, ["P.Q"], 1⟩, false, false⟩ : StoreState).internalState "P") = some 11 ∧
    getKey (⟨.container 10 false true
        (.cons "P" (.container 11 false true (.cons "Q" (.num 2) .nil)) .nil),
      [("P", [("m", ⟨[], .num 42⟩)]), ("P.Q", [])],
      ⟨true, ["P.Q"], 1⟩, false, false⟩ : StoreState).internalState "P" ≠
      getKey (⟨.container 0 false true
          (.cons "P" (.container 1 false true (.cons "Q" (.num 1) .nil)) .nil),
        [("P", [("m", ⟨[], .num 42⟩)])], ChangeInfo.idle, false, false⟩ :
          StoreState).internalState "P" ∧
    (storeMethodCall (⟨.container 10 false true
        (.cons "P" (.container 11 false true (.cons "Q" (.num 2) .nil)) .nil),
      [("P", [("m", ⟨[], .num 42⟩)]), ("P.Q", [])],
      ⟨true, ["P.Q"], 1⟩, false, false⟩ : StoreState) "P" "m" (fun _ _ => .undefined) []).1 =
      (⟨[], .num 42⟩ : CacheEntry).result ∧
    (storeMethodCall (⟨.container 10 false true
        (.cons "P" (.container 11 false true (.cons "Q" (.num 2) .nil)) .nil),
      [("P", [("m", ⟨[], .num 42⟩)]), ("P.Q", [])],
      ⟨true, ["P.Q"], 1⟩, false, false⟩ : StoreState) "P" "m" (fun _ _ => .undefined) []).2.2 =
      false := by
  have h := claim_c10_subscope_cache_frame 10
    ⟨.container 0 false true
        (.cons "P" (.container 1 false true (.cons "Q" (.num 1) .nil)) .nil),
      [("P", [("m", ⟨[], .num 42⟩)])], ChangeInfo.idle, false, false⟩
    ⟨.container 10 false true
        (.cons "P" (.container 11 false true (.cons "Q" (.num 2) .nil)) .nil),
      [("P", [("m", ⟨[], .num 42⟩)]), ("P.Q", [])], ⟨true, ["P.Q"], 1⟩, false, false⟩
    "P.Q" "P" "Q" (.num 2) 0 1 true true
    (.cons "P" (.container 1 false true (.cons "Q" (.num 1) .nil)) .nil)
    (.cons "Q" (.num 1) .nil)
    (by decide) (by decide) (by decide) (by decide) (by decide) (by decide)
    (by decide)
  exact ⟨h.1, h.2.1, h.2.2.1, h.2.2.2.1,
    (h.2.2.2.2 "m" (fun _ _ => .undefined) [] ⟨[], .num 42⟩ (by decide)
      (by decide)).1,
    (h.2.2.2.2 "m" (fun _ _ => .undefined) [] ⟨[], .num 42⟩ (by decide)
      (by decide)).2⟩

end Seqda

